import Mathlib

/-!
Verification of the `hl-bootstrap` peer-bootstrap pipeline
(repository `katanacap/hyperliquid-node`, crate `hl-bootstrap`).

The Rust sources are shallowly embedded: pure computations become Lean
functions, and the results of network requests / filesystem probes that the
code consumes are passed in as explicit parameters.  Machine integers are
modelled as `Nat` (all relevant quantities — latencies in nanoseconds,
millisecond timestamps, peer counts — stay far from any overflow boundary in
the source, and where the source clamps, the model clamps identically).
`f64` gauge arithmetic in the monitor is modelled exactly over `ℚ`.
-/

/-! ## IPv4 addresses (`std::net::Ipv4Addr`)

The source stores peers as `Ipv4Addr` and (de)serializes them through their
canonical dotted-quad string.  We model an address as four octets, with the
canonical formatting and `FromStr`-style parsing (leading zeros rejected,
each octet `≤ 255`) used by the standard library. -/

structure Ipv4 where
  o1 : Fin 256
  o2 : Fin 256
  o3 : Fin 256
  o4 : Fin 256
deriving DecidableEq, Repr

/-- Parse one decimal octet from a character list: non-empty, digits only,
no leading zero (except `"0"` itself), value `≤ 255`. -/
def parseOctet (cs : List Char) : Option Nat :=
  if cs.isEmpty then none
  else if ¬ cs.all (fun c => c.isDigit) then none
  else if cs.length > 1 ∧ cs.headD '0' = '0' then none
  else
    let n := cs.foldl (fun acc c => acc * 10 + (c.toNat - 48)) 0
    if n ≤ 255 then some n else none

/-- Split a character list on `'.'` separators. -/
def splitDot : List Char → List (List Char)
  | [] => [[]]
  | c :: rest =>
    if c = '.' then [] :: splitDot rest
    else
      match splitDot rest with
      | [] => [[c]]
      | g :: gs => (c :: g) :: gs

def parseIpv4 (s : String) : Option Ipv4 :=
  match splitDot s.toList with
  | [c1, c2, c3, c4] =>
    match parseOctet c1, parseOctet c2, parseOctet c3, parseOctet c4 with
    | some a, some b, some c, some d =>
      if h : a ≤ 255 ∧ b ≤ 255 ∧ c ≤ 255 ∧ d ≤ 255 then
        some ⟨⟨a, by omega⟩, ⟨b, by omega⟩, ⟨c, by omega⟩, ⟨d, by omega⟩⟩
      else none
    | _, _, _, _ => none
  | _ => none

def ipv4ToString (ip : Ipv4) : String :=
  Nat.repr ip.o1.val ++ "." ++ Nat.repr ip.o2.val ++ "." ++
    Nat.repr ip.o3.val ++ "." ++ Nat.repr ip.o4.val

/-! ## JSON documents

A structural model of `serde_json::Value`, sufficient for the configuration
documents this program reads and writes.  Objects are ordered association
lists; numbers are naturals (the only numeric field the program interprets is
the `u16` `n_gossip_peers`; numbers inside unrecognized fields pass through
opaquely). -/

inductive Json where
  | null : Json
  | bool (b : Bool) : Json
  | num (n : Nat) : Json
  | str (s : String) : Json
  | arr (elems : List Json) : Json
  | obj (fields : List (String × Json)) : Json

mutual

def Json.decEq : (a b : Json) → Decidable (a = b)
  | .null, .null => .isTrue rfl
  | .bool a, .bool b =>
    if h : a = b then .isTrue (by rw [h]) else .isFalse (fun hc => h (Json.bool.inj hc))
  | .num a, .num b =>
    if h : a = b then .isTrue (by rw [h]) else .isFalse (fun hc => h (Json.num.inj hc))
  | .str a, .str b =>
    if h : a = b then .isTrue (by rw [h]) else .isFalse (fun hc => h (Json.str.inj hc))
  | .arr xs, .arr ys =>
    match Json.decEqList xs ys with
    | .isTrue h => .isTrue (by rw [h])
    | .isFalse h => .isFalse (fun hc => h (Json.arr.inj hc))
  | .obj xs, .obj ys =>
    match Json.decEqFields xs ys with
    | .isTrue h => .isTrue (by rw [h])
    | .isFalse h => .isFalse (fun hc => h (Json.obj.inj hc))
  | .null, .bool _ => .isFalse (fun h => Json.noConfusion h)
  | .null, .num _ => .isFalse (fun h => Json.noConfusion h)
  | .null, .str _ => .isFalse (fun h => Json.noConfusion h)
  | .null, .arr _ => .isFalse (fun h => Json.noConfusion h)
  | .null, .obj _ => .isFalse (fun h => Json.noConfusion h)
  | .bool _, .null => .isFalse (fun h => Json.noConfusion h)
  | .bool _, .num _ => .isFalse (fun h => Json.noConfusion h)
  | .bool _, .str _ => .isFalse (fun h => Json.noConfusion h)
  | .bool _, .arr _ => .isFalse (fun h => Json.noConfusion h)
  | .bool _, .obj _ => .isFalse (fun h => Json.noConfusion h)
  | .num _, .null => .isFalse (fun h => Json.noConfusion h)
  | .num _, .bool _ => .isFalse (fun h => Json.noConfusion h)
  | .num _, .str _ => .isFalse (fun h => Json.noConfusion h)
  | .num _, .arr _ => .isFalse (fun h => Json.noConfusion h)
  | .num _, .obj _ => .isFalse (fun h => Json.noConfusion h)
  | .str _, .null => .isFalse (fun h => Json.noConfusion h)
  | .str _, .bool _ => .isFalse (fun h => Json.noConfusion h)
  | .str _, .num _ => .isFalse (fun h => Json.noConfusion h)
  | .str _, .arr _ => .isFalse (fun h => Json.noConfusion h)
  | .str _, .obj _ => .isFalse (fun h => Json.noConfusion h)
  | .arr _, .null => .isFalse (fun h => Json.noConfusion h)
  | .arr _, .bool _ => .isFalse (fun h => Json.noConfusion h)
  | .arr _, .num _ => .isFalse (fun h => Json.noConfusion h)
  | .arr _, .str _ => .isFalse (fun h => Json.noConfusion h)
  | .arr _, .obj _ => .isFalse (fun h => Json.noConfusion h)
  | .obj _, .null => .isFalse (fun h => Json.noConfusion h)
  | .obj _, .bool _ => .isFalse (fun h => Json.noConfusion h)
  | .obj _, .num _ => .isFalse (fun h => Json.noConfusion h)
  | .obj _, .str _ => .isFalse (fun h => Json.noConfusion h)
  | .obj _, .arr _ => .isFalse (fun h => Json.noConfusion h)

def Json.decEqList : (a b : List Json) → Decidable (a = b)
  | [], [] => .isTrue rfl
  | [], _ :: _ => .isFalse (fun h => List.noConfusion h)
  | _ :: _, [] => .isFalse (fun h => List.noConfusion h)
  | x :: xs, y :: ys =>
    match Json.decEq x y, Json.decEqList xs ys with
    | .isTrue h1, .isTrue h2 => .isTrue (by rw [h1, h2])
    | .isFalse h1, _ => .isFalse (fun hc => h1 (List.cons.inj hc).1)
    | _, .isFalse h2 => .isFalse (fun hc => h2 (List.cons.inj hc).2)

def Json.decEqFields : (a b : List (String × Json)) → Decidable (a = b)
  | [], [] => .isTrue rfl
  | [], _ :: _ => .isFalse (fun h => List.noConfusion h)
  | _ :: _, [] => .isFalse (fun h => List.noConfusion h)
  | (k1, v1) :: xs, (k2, v2) :: ys =>
    match inferInstanceAs (Decidable (k1 = k2)), Json.decEq v1 v2,
        Json.decEqFields xs ys with
    | .isTrue h0, .isTrue h1, .isTrue h2 => .isTrue (by rw [h0, h1, h2])
    | .isFalse h0, _, _ =>
      .isFalse (fun hc => h0 (congrArg Prod.fst (List.cons.inj hc).1))
    | _, .isFalse h1, _ =>
      .isFalse (fun hc => h1 (congrArg Prod.snd (List.cons.inj hc).1))
    | _, _, .isFalse h2 => .isFalse (fun hc => h2 (List.cons.inj hc).2)

end

instance : DecidableEq Json := Json.decEq

/-- First binding of key `k` in a JSON object's field list. -/
def getField (fields : List (String × Json)) (k : String) : Option Json :=
  (fields.find? (fun kv => kv.1 = k)).map (fun kv => kv.2)

/-! ## Gossip configuration document (`hl_gossip_config.rs` lines 8-43)

`OverrideGossipConfig` mirrors the `structstruck` struct: `root_node_ips`
(serde `default`, each element `{"Ip": <dotted-quad>}`), `try_new_peers`
(serde `default`, so `false` when absent), `chain` (required,
`"Mainnet" | "Testnet"`), `n_gossip_peers` (`Option<u16>`, omitted from the
output when `None`), and a `#[serde(flatten)] unknown: Value` catching every
unrecognized top-level field. -/

inductive HyperliquidChain where
  | Mainnet : HyperliquidChain
  | Testnet : HyperliquidChain
deriving DecidableEq, Repr

/-- `HyperliquidChain::to_string` (`hl_gossip_config.rs` lines 58-66),
which is also the serde rename used for (de)serialization. -/
def HyperliquidChain.toStr : HyperliquidChain → String
  | .Mainnet => "Mainnet"
  | .Testnet => "Testnet"

structure NodeIp where
  ip : Ipv4
deriving DecidableEq, Repr

structure OverrideGossipConfig where
  root_node_ips : List NodeIp
  try_new_peers : Bool
  chain : HyperliquidChain
  n_gossip_peers : Option Nat
  unknown : Json
deriving DecidableEq

/-- `OverrideGossipConfig::new` (`hl_gossip_config.rs` lines 33-43):
fresh defaults with the given chain; `unknown` defaults to `Value::Null`. -/
def OverrideGossipConfig.new (chain : HyperliquidChain) : OverrideGossipConfig :=
  { root_node_ips := []
    try_new_peers := true
    chain := chain
    n_gossip_peers := none
    unknown := Json.null }

/-- The struct's own field names: every other top-level key of an input
document is collected into `unknown` by `#[serde(flatten)]`. -/
def recognizedKeys : List String :=
  ["root_node_ips", "try_new_peers", "chain", "n_gossip_peers"]

/-- Deserialize a `NodeIp` (`{"Ip": "<dotted-quad>"}`); serde's derived
deserializer ignores extra keys and requires a parseable `Ipv4Addr`. -/
def NodeIp.fromJson : Json → Option NodeIp
  | .obj fields =>
    match getField fields "Ip" with
    | some (.str s) => (parseIpv4 s).map NodeIp.mk
    | _ => none
  | _ => none

def NodeIp.toJson (n : NodeIp) : Json :=
  .obj [("Ip", .str (ipv4ToString n.ip))]

def HyperliquidChain.fromJson : Json → Option HyperliquidChain
  | .str "Mainnet" => some .Mainnet
  | .str "Testnet" => some .Testnet
  | _ => none

/-- The `root_node_ips` field as serde reads it: absent gives the default
empty list (`#[serde(default)]`), otherwise an array of `NodeIp`s. -/
def parseRootNodeIps (fields : List (String × Json)) : Option (List NodeIp) :=
  match getField fields "root_node_ips" with
  | none => some []
  | some (.arr elems) => elems.mapM NodeIp.fromJson
  | some _ => none

/-- The `try_new_peers` field: absent gives `false` (`#[serde(default)]`). -/
def parseTryNewPeers (fields : List (String × Json)) : Option Bool :=
  match getField fields "try_new_peers" with
  | none => some false
  | some (.bool b) => some b
  | some _ => none

/-- The required `chain` field. -/
def parseChain (fields : List (String × Json)) : Option HyperliquidChain :=
  match getField fields "chain" with
  | some v => HyperliquidChain.fromJson v
  | none => none

/-- The optional `n_gossip_peers` field (`Option<u16>`): absent or `null`
gives `None`; a number must fit `u16`. -/
def parseNGossipPeers (fields : List (String × Json)) : Option (Option Nat) :=
  match getField fields "n_gossip_peers" with
  | none => some none
  | some (.null) => some none
  | some (.num n) => if n < 65536 then some (some n) else none
  | some _ => none

/-- Deserialization of `OverrideGossipConfig` as serde derives it: the four
declared fields as above, and all unrecognized keys collected — in document
order — into the flattened `unknown` map. -/
def OverrideGossipConfig.fromJson : Json → Option OverrideGossipConfig
  | .obj fields =>
    match parseRootNodeIps fields, parseTryNewPeers fields, parseChain fields,
        parseNGossipPeers fields with
    | some root_node_ips, some try_new_peers, some chain, some n_gossip_peers =>
      some { root_node_ips := root_node_ips
             try_new_peers := try_new_peers
             chain := chain
             n_gossip_peers := n_gossip_peers
             unknown := .obj (fields.filter (fun kv => kv.1 ∉ recognizedKeys)) }
    | _, _, _, _ => none
  | _ => none

/-- Serialization of `OverrideGossipConfig` as serde derives it: the known
fields in declaration order, `n_gossip_peers` omitted when `None`
(`skip_serializing_if = "Option::is_none"`), then the flattened `unknown`
value inlined (`Null` and an empty map contribute nothing; serde fails on
other non-map values, which this program never constructs). -/
def OverrideGossipConfig.toJsonFields (c : OverrideGossipConfig) :
    List (String × Json) :=
  [("root_node_ips", .arr (c.root_node_ips.map NodeIp.toJson)),
   ("try_new_peers", .bool c.try_new_peers),
   ("chain", .str c.chain.toStr)] ++
  (match c.n_gossip_peers with
   | some n => [("n_gossip_peers", .num n)]
   | none => []) ++
  (match c.unknown with
   | .obj fs => fs
   | _ => [])

def OverrideGossipConfig.toJson (c : OverrideGossipConfig) : Json :=
  .obj c.toJsonFields

/-! ## Seed peers and source fetchers (`hl_gossip_config.rs` lines 68-282)

Network responses are inputs to the embedding: each fetcher takes the
(already transport-decoded) payload it would have received, with `none`
standing for any transport / HTTP-status / body-parse failure.  The
`HashSet<HyperliquidSeedPeer>` used by the mainnet aggregator is modelled as
a list with insert-if-absent extension: the derived `Eq`/`Hash` on
`HyperliquidSeedPeer` covers BOTH fields (`operator_name` and `ip`), so the
set's element identity is the whole pair. -/

structure HyperliquidSeedPeer where
  operator_name : String
  ip : Ipv4
deriving DecidableEq, Repr

/-- `HashSet::insert`: adds `x` unless an equal element is present. -/
def hsInsert (l : List HyperliquidSeedPeer) (x : HyperliquidSeedPeer) :
    List HyperliquidSeedPeer :=
  if x ∈ l then l else l ++ [x]

/-- `HashSet::extend` over an iterator of peers. -/
def hsExtend (l : List HyperliquidSeedPeer) (xs : List HyperliquidSeedPeer) :
    List HyperliquidSeedPeer :=
  xs.foldl hsInsert l

/-- `fetch_mainnet_seed_peers_api` (lines 112-145).  `resp` is the decoded
`gossipRootIps` response (`none` = transport/status/parse failure).  Fails
when the raw list is empty; otherwise drops ignored addresses and labels
every survivor with the fixed provenance string — note an all-ignored
response yields `Ok` with an empty list. -/
def fetch_mainnet_seed_peers_api (resp : Option (List Ipv4))
    (ignored_peers : List Ipv4) : Option (List HyperliquidSeedPeer) :=
  match resp with
  | none => none
  | some peer_ips =>
    if peer_ips.isEmpty then none
    else
      some ((peer_ips.filter (fun ip => ip ∉ ignored_peers)).map
        (fun ip => { operator_name := "Hyperliquid API-provided IP", ip := ip }))

/-- `fetch_mainnet_seed_peers_markdown_table` (lines 147-250).  `rows` is the
list of `(operator_name, ip)` pairs extracted from the README table
(`none` = transport failure or missing section).  Ignored addresses are
skipped during row parsing, and the fetch fails when zero usable rows
remain. -/
def fetch_mainnet_seed_peers_markdown_table (rows : Option (List (String × Ipv4)))
    (ignored_peers : List Ipv4) : Option (List HyperliquidSeedPeer) :=
  match rows with
  | none => none
  | some rows =>
    let peers := (rows.filter (fun r => r.2 ∉ ignored_peers)).map
      (fun r => { operator_name := r.1, ip := r.2 })
    if peers.isEmpty then none else some peers

/-- `fetch_testnet_seed_peers` (lines 252-282).  `resp` is the `root_node_ips`
of the fetched testnet `OverrideGossipConfig` (`none` = transport/status/parse
failure).  Every address is labelled `"Imperator.co"`; there is no emptiness
check, so a successful fetch with zero usable addresses returns `Ok([])`. -/
def fetch_testnet_seed_peers (resp : Option (List Ipv4))
    (ignored_peers : List Ipv4) : Option (List HyperliquidSeedPeer) :=
  match resp with
  | none => none
  | some root_node_ips =>
    some ((root_node_ips.filter (fun ip => ip ∉ ignored_peers)).map
      (fun ip => { operator_name := "Imperator.co", ip := ip }))

/-- The three network responses consumed by one aggregator run. -/
structure FetchEnv where
  apiResp : Option (List Ipv4)
  mdRows : Option (List (String × Ipv4))
  testnetResp : Option (List Ipv4)

/-- `fetch_hyperliquid_seed_peers` (lines 81-110).  Mainnet: union the two
sources into the `HashSet` (an individual source failure is only logged) and
fail when the set ends up empty.  Testnet: the single source's result is
returned directly. -/
def fetch_hyperliquid_seed_peers (chain : HyperliquidChain) (env : FetchEnv)
    (ignored_peers : List Ipv4) : Option (List HyperliquidSeedPeer) :=
  match chain with
  | .Mainnet =>
    let all_peers : List HyperliquidSeedPeer := []
    let all_peers :=
      match fetch_mainnet_seed_peers_api env.apiResp ignored_peers with
      | some peers => hsExtend all_peers peers
      | none => all_peers
    let all_peers :=
      match fetch_mainnet_seed_peers_markdown_table env.mdRows ignored_peers with
      | some peers => hsExtend all_peers peers
      | none => all_peers
    if all_peers.isEmpty then none else some all_peers
  | .Testnet => fetch_testnet_seed_peers env.testnetResp ignored_peers

/-! ## Latency prober (`speedtest.rs` lines 33-129)

`measure_node_latency` is a network probe; its result for candidate `idx`
is an input `outcomes[idx]` (`some lat` = connect succeeded after `lat`
nanoseconds, `none` = timeout or I/O error).  The awaiting loop pushes
`(idx, latency)` for each success in spawn (= input) order; the list is then
stable-sorted by latency (`sort_by(|a, b| a.1.cmp(&b.1))` — Rust slice sorts
are stable, modelled by Mathlib's stable `insertionSort`), and the first
`min n len` entries are mapped back to their candidates. -/

def latLe (a b : Nat × Nat) : Prop := a.2 ≤ b.2

instance : DecidableRel latLe := fun a b => inferInstanceAs (Decidable (a.2 ≤ b.2))

instance : IsTotal (Nat × Nat) latLe := ⟨fun a b => Nat.le_total a.2 b.2⟩

instance : IsTrans (Nat × Nat) latLe := ⟨fun _ _ _ h1 h2 => Nat.le_trans h1 h2⟩

/-- The `successful_nodes` vector: `(idx, latency)` per succeeding probe,
in input order. -/
def successfulNodes (outcomes : List (Option Nat)) : List (Nat × Nat) :=
  outcomes.enum.filterMap (fun p => p.2.map (fun lat => (p.1, lat)))

/-- `successful_nodes` after `sort_by` latency (stable). -/
def speedtestRanked (outcomes : List (Option Nat)) : List (Nat × Nat) :=
  List.insertionSort latLe (successfulNodes outcomes)

/-- `speedtest_nodes` (lines 48-129): take the `min n len` lowest-latency
successes, in latency order, and return their candidates. -/
def speedtest_nodes (candidates : List HyperliquidSeedPeer) (n : Nat)
    (outcomes : List (Option Nat)) : List HyperliquidSeedPeer :=
  let sorted := speedtestRanked outcomes
  let to_take := min n sorted.length
  (sorted.take to_take).filterMap (fun p => candidates[p.1]?)

/-! ## Bootstrap pipeline (`main.rs` lines 242-358, refresh path)

`prepare_hl_node`, from the freshness decision onward.  Inputs: the CLI
arguments it consumes, the fetch environment, the per-candidate probe
outcome (`probe i` for candidate index `i`), whether the existing config
file is fresh (its `mtime` age `≤ max_age`), and the existing file's
contents.  The contents parameter only documents independence: the source
never reads the old file (`// TODO: load existing configuration`).
Result: `ok none` = fresh short-circuit (nothing written), `ok (some c)` =
document `c` persisted, `error` = pipeline abort. -/

structure PrepareArgs where
  network : HyperliquidChain
  seed_peers_ignored : List Ipv4
  seed_peers_extra : List Ipv4
  seed_peers_amount : Nat

def prepare_hl_node (args : PrepareArgs) (env : FetchEnv)
    (probe : Nat → Option Nat) (fresh : Bool) (priorFile : Option Json) :
    Except Unit (Option OverrideGossipConfig) :=
  if fresh then .ok none
  else
    let config := OverrideGossipConfig.new args.network
    match fetch_hyperliquid_seed_peers args.network env args.seed_peers_ignored with
    | none => .error ()
    | some fetched =>
      let seed_nodes := fetched ++ args.seed_peers_extra.map
        (fun ip => { operator_name := "manual", ip := ip })
      if seed_nodes.isEmpty then .ok (some config)
      else
        let tested_seed_nodes := speedtest_nodes seed_nodes args.seed_peers_amount
          ((List.range seed_nodes.length).map probe)
        if tested_seed_nodes.isEmpty then .error ()
        else
          let config := { config with
            root_node_ips := tested_seed_nodes.map (fun seed => { ip := seed.ip }) }
          let n_gossip_peers := config.root_node_ips.length
          let config := if n_gossip_peers > 8 then
              { config with n_gossip_peers := some (min n_gossip_peers 100) }
            else config
          .ok (some config)

/-! ## Data-directory pruning (`prune.rs` lines 34-144)

The directory tree under the watched root is modelled structurally; `mtime`
is seconds (any fixed unit works — only differences against `now` matter).
`collect_files_recursive` visits a directory's regular files first (marking
a file unless it sits directly in the base directory, is named
`visor_child_stderr`, or is not strictly older than the cutoff), then
recurses into the subdirectories in entry order.  `run_cleanup` then removes
exactly the marked files; directories are never touched. -/

inductive FsEntry where
  | file (name : String) (mtime : Nat)
  | dir (name : String) (entries : List FsEntry)

/-- The age test (`prune.rs` lines 119-124): `now.duration_since(modified)`
fails when `modified > now` (`unwrap_or(false)`), else the file is marked
when `age > cutoff` strictly. -/
def pruneShouldRemove (cutoff now mtime : Nat) : Bool :=
  match (if mtime ≤ now then some (now - mtime) else none) with
  | some age => decide (age > cutoff)
  | none => false

/-- One entry of the per-directory file loop (`prune.rs` lines 88-129):
`atRoot` models `path.parent() == Some(base_path)`. -/
def fileMark (cutoff now : Nat) (atRoot : Bool) (pre : List String) :
    FsEntry → Option (List String)
  | .file name mtime =>
    if atRoot then none
    else if name = "visor_child_stderr" then none
    else if pruneShouldRemove cutoff now mtime then some (pre ++ [name]) else none
  | .dir _ _ => none

mutual

/-- `collect_files_recursive` (lines 71-144) on a directory's entry list:
file marks of this directory, then the recursive marks of its
subdirectories (depth-first, in entry order). -/
def collect_files_recursive (cutoff now : Nat) (atRoot : Bool)
    (pre : List String) (entries : List FsEntry) : List (List String) :=
  entries.filterMap (fileMark cutoff now atRoot pre) ++
    subdirMarks cutoff now pre entries
termination_by (sizeOf entries, 1)

/-- The subdirectory pass of `collect_files_recursive`. -/
def subdirMarks (cutoff now : Nat) (pre : List String) :
    List FsEntry → List (List String)
  | [] => []
  | .file _ _ :: rest => subdirMarks cutoff now pre rest
  | .dir name children :: rest =>
    collect_files_recursive cutoff now false (pre ++ [name]) children ++
      subdirMarks cutoff now pre rest
termination_by entries => (sizeOf entries, 0)

end

/-- `run_cleanup` (lines 34-69): the paths whose files one cycle deletes —
the walk starts at the base directory itself, whose direct entries have
`path.parent() == Some(base_path)`. -/
def run_cleanup (cutoff now : Nat) (baseEntries : List FsEntry) :
    List (List String) :=
  collect_files_recursive cutoff now true [] baseEntries

mutual

/-- Every regular file under a directory's entry list, with its path
(relative to the watched root) and `mtime`, in the same visit order as
`collect_files_recursive`. -/
def allFilesIn (pre : List String) (entries : List FsEntry) :
    List (List String × Nat) :=
  entries.filterMap (fun e =>
    match e with
    | .file name mtime => some (pre ++ [name], mtime)
    | .dir _ _ => none) ++
    allFilesSub pre entries
termination_by (sizeOf entries, 1)

def allFilesSub (pre : List String) : List FsEntry → List (List String × Nat)
  | [] => []
  | .file _ _ :: rest => allFilesSub pre rest
  | .dir name children :: rest =>
    allFilesIn (pre ++ [name]) children ++ allFilesSub pre rest
termination_by entries => (sizeOf entries, 0)

end

/-! ## Health poller and readiness endpoint (`monitor/mod.rs`, `monitor/server.rs`)

The three Prometheus gauges the poller writes and `readyz` reads are
modelled as a record.  Durations are nanoseconds (`Nat`); `as_ms_f64`
(`mod.rs` lines 124-127) computes `secs * 1e3 + subsec_nanos / 1e6`, i.e.
exactly `ns / 10^6`, modelled over `ℚ` (the `f64` arithmetic is treated as
exact). -/

structure HealthState where
  responding : Bool
  system_ms : ℚ
  node_ms : ℚ

/-- Process start: gauges zero, node not yet marked responding. -/
def HealthState.init : HealthState :=
  { responding := false, system_ms := 0, node_ms := 0 }

/-- `as_ms_f64` on a duration of `ns` nanoseconds. -/
def as_ms (ns : Nat) : ℚ := (ns : ℚ) / 1000000

/-- Outcome of one `request_exchange_time` call: transport-level
unreachable (`err.is_request()`), any other failure (bad status, parse
error), or the node's reported time in milliseconds. -/
inductive ExchangeResp where
  | unreachable : ExchangeResp
  | badResponse : ExchangeResp
  | ok (time_ms : Nat) : ExchangeResp

/-- One iteration of the `poll_node` loop (`mod.rs` lines 90-121):
the system-time gauge is set unconditionally; on failure the responding
gauge drops to 0 and the node-time gauge keeps its previous value; on
success responding is 1 and the node-time gauge is updated
(`Duration::from_millis(time)` = `time * 10^6` ns). -/
def poll_node_tick (prev : HealthState) (system_now_ns : Nat)
    (resp : ExchangeResp) : HealthState :=
  let st := { prev with system_ms := as_ms system_now_ns }
  match resp with
  | .unreachable => { st with responding := false }
  | .badResponse => { st with responding := false }
  | .ok time_ms =>
    { st with responding := true, node_ms := as_ms (time_ms * 1000000) }

/-- `readyz` (`server.rs` lines 56-68): 200 iff the responding gauge is 1
and `max(system_ms - node_ms, 0)` is strictly below the threshold. -/
def readyz (st : HealthState) (healthy_drift_threshold_ns : Nat) : Nat :=
  if st.responding = true ∧
      max (st.system_ms - st.node_ms) 0 < as_ms healthy_drift_threshold_ns then
    200
  else 503

/-! ## Helper lemmas: the mainnet `HashSet` accumulator -/

theorem hsInsert_nodup (l : List HyperliquidSeedPeer) (x : HyperliquidSeedPeer)
    (h : l.Nodup) : (hsInsert l x).Nodup := by
  unfold hsInsert
  split
  · exact h
  · next hx =>
    exact List.Nodup.append h (List.nodup_singleton x)
      ((List.disjoint_singleton).mpr hx)

theorem hsExtend_nodup (xs : List HyperliquidSeedPeer) :
    ∀ l, l.Nodup → (hsExtend l xs).Nodup := by
  induction xs with
  | nil => intro l h; simpa [hsExtend] using h
  | cons x xs ih =>
    intro l h
    have : hsExtend l (x :: xs) = hsExtend (hsInsert l x) xs := rfl
    rw [this]
    exact ih _ (hsInsert_nodup l x h)

theorem hsInsert_ne_nil (l : List HyperliquidSeedPeer) (x : HyperliquidSeedPeer) :
    hsInsert l x ≠ [] := by
  unfold hsInsert
  split
  · next hx => intro hnil; subst hnil; exact absurd hx (List.not_mem_nil x)
  · simp

theorem hsExtend_eq_nil_iff (xs : List HyperliquidSeedPeer) :
    ∀ l, hsExtend l xs = [] ↔ l = [] ∧ xs = [] := by
  induction xs with
  | nil => intro l; simp [hsExtend]
  | cons x xs ih =>
    intro l
    have : hsExtend l (x :: xs) = hsExtend (hsInsert l x) xs := rfl
    rw [this, ih]
    simp [hsInsert_ne_nil l x]

/-- A fixed address used by the concrete scenarios below. -/
def ipA : Ipv4 := ⟨1, 2, 3, 4⟩

/-- C1.  The claim asserts deduplication by address only.  On the code,
`HyperliquidSeedPeer`'s derived `Eq`/`Hash` cover `operator_name` as well,
so the same address fetched by the API source (fixed label) and by the
markdown source (its operator name) survives twice in the aggregator's
output. -/
theorem fetch_dedup_by_address_counterexample :
    fetch_hyperliquid_seed_peers .Mainnet
        ⟨some [ipA], some [("Operator B", ipA)], none⟩ [] =
      some [{ operator_name := "Hyperliquid API-provided IP", ip := ipA },
            { operator_name := "Operator B", ip := ipA }] ∧
    ((fetch_hyperliquid_seed_peers .Mainnet
        ⟨some [ipA], some [("Operator B", ipA)], none⟩ []).getD []).countP
      (fun p => p.ip = ipA) = 2 := by
  constructor <;> rfl

/-- C1 (amended).  The mainnet aggregator deduplicates by the whole
candidate — source label together with address — so its output never
contains the same (label, address) pair twice; an address fetched under
several distinct labels appears once per label. -/
theorem fetch_mainnet_peers_nodup (env : FetchEnv) (ignored_peers : List Ipv4)
    (l : List HyperliquidSeedPeer)
    (h : fetch_hyperliquid_seed_peers .Mainnet env ignored_peers = some l) :
    l.Nodup := by
  unfold fetch_hyperliquid_seed_peers at h
  set p1 := fetch_mainnet_seed_peers_api env.apiResp ignored_peers with hp1
  set p2 := fetch_mainnet_seed_peers_markdown_table env.mdRows ignored_peers with hp2
  have step1 : ∀ (base : List HyperliquidSeedPeer), base.Nodup →
      (match p1 with
        | some peers => hsExtend base peers
        | none => base).Nodup := by
    intro base hb
    cases p1 with
    | none => exact hb
    | some peers => exact hsExtend_nodup peers base hb
  have step2 : ∀ (base : List HyperliquidSeedPeer), base.Nodup →
      (match p2 with
        | some peers => hsExtend base peers
        | none => base).Nodup := by
    intro base hb
    cases p2 with
    | none => exact hb
    | some peers => exact hsExtend_nodup peers base hb
  simp only at h
  split at h
  · exact absurd h (by simp)
  · exact Option.some.inj h ▸ step2 _ (step1 [] List.nodup_nil)

/-- C1 witness: a concrete mainnet run establishing the amended theorem's
hypothesis and conclusion. -/
theorem fetch_mainnet_peers_nodup_witness :
    fetch_hyperliquid_seed_peers .Mainnet ⟨some [ipA], none, none⟩ [] =
      some [{ operator_name := "Hyperliquid API-provided IP", ip := ipA }] ∧
    ([{ operator_name := "Hyperliquid API-provided IP", ip := ipA }] :
      List HyperliquidSeedPeer).Nodup :=
  ⟨rfl, fetch_mainnet_peers_nodup ⟨some [ipA], none, none⟩ [] _ rfl⟩

/-- C3.  The claim makes a zero-usable-peer run an error on either chain.
On Testnet the code has no emptiness check: here the single source succeeds
but its only address is in the ignore-set, and the aggregator returns
`Ok` with an empty list instead of an error. -/
theorem fetch_empty_testnet_counterexample :
    fetch_hyperliquid_seed_peers .Testnet ⟨none, none, some [ipA]⟩ [ipA] ≠
      none ∧
    fetch_hyperliquid_seed_peers .Testnet ⟨none, none, some [ipA]⟩ [ipA] =
      some [] := by
  constructor
  · intro h; exact Option.noConfusion h
  · rfl

/-- The nonemptiness gate at the end of the mainnet aggregator. -/
theorem ite_isEmpty_eq_none (l : List HyperliquidSeedPeer) :
    (if l.isEmpty then (none : Option (List HyperliquidSeedPeer)) else some l) =
      none ↔ l = [] := by
  cases l <;> simp

/-- C3 (amended).  On Mainnet the aggregator errors exactly when each of the
two sources either fails or contributes zero usable peers; on Testnet it
errors exactly when the single source fetch fails — a successful testnet
fetch with zero usable (non-ignored) peers yields an empty, non-error
result. -/
theorem fetch_error_iff_no_usable_peers (env : FetchEnv)
    (ignored_peers : List Ipv4) :
    (fetch_hyperliquid_seed_peers .Mainnet env ignored_peers = none ↔
      (fetch_mainnet_seed_peers_api env.apiResp ignored_peers = none ∨
        fetch_mainnet_seed_peers_api env.apiResp ignored_peers = some []) ∧
      (fetch_mainnet_seed_peers_markdown_table env.mdRows ignored_peers = none ∨
        fetch_mainnet_seed_peers_markdown_table env.mdRows ignored_peers =
          some [])) ∧
    (fetch_hyperliquid_seed_peers .Testnet env ignored_peers = none ↔
      env.testnetResp = none) := by
  constructor
  · unfold fetch_hyperliquid_seed_peers
    simp only
    cases hapi : fetch_mainnet_seed_peers_api env.apiResp ignored_peers with
    | none =>
      cases hmd :
          fetch_mainnet_seed_peers_markdown_table env.mdRows ignored_peers with
      | none => simp [hsExtend]
      | some peers2 => simp [ite_isEmpty_eq_none, hsExtend_eq_nil_iff]
    | some peers1 =>
      cases hmd :
          fetch_mainnet_seed_peers_markdown_table env.mdRows ignored_peers with
      | none => simp [ite_isEmpty_eq_none, hsExtend_eq_nil_iff]
      | some peers2 => simp [ite_isEmpty_eq_none, hsExtend_eq_nil_iff]
  · unfold fetch_hyperliquid_seed_peers fetch_testnet_seed_peers
    cases htn : env.testnetResp with
    | none => simp
    | some ips => simp

/-- C9.  The readiness endpoint, evaluated on the state left by the most
recent poll tick, returns 200 exactly when that tick got a response from
the node and the clamped-to-nonnegative difference between the sampled
wall-clock time and the node-reported time is strictly below the configured
threshold; every non-responding tick yields 503.  The final two conjuncts
are the spec's example: threshold 2500 ms with observed drift 3000 ms gives
503, as does a tick on which the node did not respond. -/
theorem readyz_healthy_iff :
    (∀ (prev : HealthState) (system_now_ns : Nat) (resp : ExchangeResp)
        (thr_ns : Nat),
      readyz (poll_node_tick prev system_now_ns resp) thr_ns = 200 ↔
        (match resp with
         | .ok time_ms =>
           max (as_ms system_now_ns - as_ms (time_ms * 1000000)) 0 <
             as_ms thr_ns
         | .unreachable => False
         | .badResponse => False)) ∧
    readyz (poll_node_tick HealthState.init 3000000000 (.ok 0)) 2500000000 =
      503 ∧
    readyz (poll_node_tick HealthState.init 3000000000 .unreachable)
      2500000000 = 503 := by
  refine ⟨?_,
    by norm_num [readyz, poll_node_tick, HealthState.init, as_ms, max_def],
    by norm_num [readyz, poll_node_tick, HealthState.init, as_ms, max_def]⟩
  intro prev system_now_ns resp thr_ns
  cases resp with
  | unreachable => simp [readyz, poll_node_tick]
  | badResponse => simp [readyz, poll_node_tick]
  | ok t =>
    by_cases hc : max (as_ms system_now_ns - as_ms (t * 1000000)) 0 <
        as_ms thr_ns <;>
      simp [readyz, poll_node_tick, hc]

/-- C5.  In every document the pipeline persists, `n_gossip_peers` is absent
when the selected peer count is at most 8 and equals `min(count, 100)` when
the count exceeds 8 (`main.rs` lines 340-346). -/
theorem n_gossip_peers_threshold (args : PrepareArgs) (env : FetchEnv)
    (probe : Nat → Option Nat) (fresh : Bool) (priorFile : Option Json)
    (cfg : OverrideGossipConfig)
    (h : prepare_hl_node args env probe fresh priorFile = .ok (some cfg)) :
    (cfg.root_node_ips.length ≤ 8 → cfg.n_gossip_peers = none) ∧
    (8 < cfg.root_node_ips.length →
      cfg.n_gossip_peers = some (min cfg.root_node_ips.length 100)) := by
  unfold prepare_hl_node at h
  split at h
  · exact absurd (Except.ok.inj h) (by simp)
  split at h
  · exact Except.noConfusion h
  dsimp only at h
  split at h
  · have hc := Option.some.inj (Except.ok.inj h)
    subst hc
    simp [OverrideGossipConfig.new]
  split at h
  · exact Except.noConfusion h
  split at h
  · next hgt =>
    have hc := Option.some.inj (Except.ok.inj h)
    subst hc
    constructor
    · intro hle
      exfalso
      revert hgt hle
      simp only [List.length_map]
      omega
    · intro _
      rfl
  · next hle =>
    have hc := Option.some.inj (Except.ok.inj h)
    subst hc
    constructor
    · intro _
      rfl
    · intro hgt
      exfalso
      revert hle hgt
      simp only [List.length_map, OverrideGossipConfig.new]
      omega

/-- Arguments of the concrete C5 scenario: testnet, 12 candidates wanted. -/
def scenarioC5Args : PrepareArgs :=
  { network := .Testnet, seed_peers_ignored := [], seed_peers_extra := [],
    seed_peers_amount := 12 }

/-- Fetch environment of the concrete C5 scenario: the testnet source
returns twelve distinct addresses. -/
def scenarioC5Env : FetchEnv :=
  ⟨none, none,
    some [⟨10, 0, 0, 0⟩, ⟨10, 0, 0, 1⟩, ⟨10, 0, 0, 2⟩, ⟨10, 0, 0, 3⟩,
          ⟨10, 0, 0, 4⟩, ⟨10, 0, 0, 5⟩, ⟨10, 0, 0, 6⟩, ⟨10, 0, 0, 7⟩,
          ⟨10, 0, 0, 8⟩, ⟨10, 0, 0, 9⟩, ⟨10, 0, 0, 10⟩, ⟨10, 0, 0, 11⟩]⟩

/-- The document the C5 scenario persists: 12 selected peers, so
`n_gossip_peers = some 12`. -/
def scenarioC5Cfg : OverrideGossipConfig :=
  { root_node_ips :=
      [⟨⟨10, 0, 0, 0⟩⟩, ⟨⟨10, 0, 0, 1⟩⟩, ⟨⟨10, 0, 0, 2⟩⟩, ⟨⟨10, 0, 0, 3⟩⟩,
       ⟨⟨10, 0, 0, 4⟩⟩, ⟨⟨10, 0, 0, 5⟩⟩, ⟨⟨10, 0, 0, 6⟩⟩, ⟨⟨10, 0, 0, 7⟩⟩,
       ⟨⟨10, 0, 0, 8⟩⟩, ⟨⟨10, 0, 0, 9⟩⟩, ⟨⟨10, 0, 0, 10⟩⟩, ⟨⟨10, 0, 0, 11⟩⟩]
    try_new_peers := true
    chain := .Testnet
    n_gossip_peers := some 12
    unknown := Json.null }

/-- C5 witness: the concrete 12-peer run, with the theorem's hypothesis
discharged by evaluation. -/
theorem n_gossip_peers_threshold_witness :
    prepare_hl_node scenarioC5Args scenarioC5Env (fun i => some i) false none =
      .ok (some scenarioC5Cfg) ∧
    ((scenarioC5Cfg.root_node_ips.length ≤ 8 →
        scenarioC5Cfg.n_gossip_peers = none) ∧
      (8 < scenarioC5Cfg.root_node_ips.length →
        scenarioC5Cfg.n_gossip_peers =
          some (min scenarioC5Cfg.root_node_ips.length 100))) :=
  ⟨rfl, n_gossip_peers_threshold scenarioC5Args scenarioC5Env (fun i => some i)
    false none scenarioC5Cfg rfl⟩

/-- C10.  The refresh path builds the persisted document from
`OverrideGossipConfig::new`: its result does not depend on the existing
file's contents (the source never loads them — only the file's mtime,
modelled by `fresh`, is consulted), and every document it persists has
`try_new_peers = true`, `chain` equal to the selected network, and an empty
(`Null`) unknown-field passthrough, so no field of a prior file reappears. -/
theorem prepare_persists_fresh_default (args : PrepareArgs) (env : FetchEnv)
    (probe : Nat → Option Nat) (fresh : Bool)
    (priorFile1 priorFile2 : Option Json) (cfg : OverrideGossipConfig) :
    prepare_hl_node args env probe fresh priorFile1 =
      prepare_hl_node args env probe fresh priorFile2 ∧
    (prepare_hl_node args env probe fresh priorFile1 = .ok (some cfg) →
      cfg.try_new_peers = true ∧ cfg.chain = args.network ∧
        cfg.unknown = Json.null) := by
  refine ⟨rfl, fun h => ?_⟩
  unfold prepare_hl_node at h
  split at h
  · exact absurd (Except.ok.inj h) (by simp)
  split at h
  · exact Except.noConfusion h
  dsimp only at h
  split at h
  · have hc := Option.some.inj (Except.ok.inj h)
    subst hc
    exact ⟨rfl, rfl, rfl⟩
  split at h
  · exact Except.noConfusion h
  split at h
  · have hc := Option.some.inj (Except.ok.inj h)
    subst hc
    exact ⟨rfl, rfl, rfl⟩
  · have hc := Option.some.inj (Except.ok.inj h)
    subst hc
    exact ⟨rfl, rfl, rfl⟩

/-- The document persisted by the concrete C10 scenario. -/
def scenarioC10Cfg : OverrideGossipConfig :=
  { root_node_ips := [⟨ipA⟩]
    try_new_peers := true
    chain := .Mainnet
    n_gossip_peers := none
    unknown := Json.null }

/-- C10 witness: a concrete mainnet refresh run whose pre-existing file held
an unrelated field; the persisted document is the fresh default with the
probed peer. -/
theorem prepare_persists_fresh_default_witness :
    prepare_hl_node
        { network := .Mainnet, seed_peers_ignored := [], seed_peers_extra := [],
          seed_peers_amount := 5 }
        ⟨some [ipA], none, none⟩ (fun _ => some 7) false
        (some (Json.obj [("stale_field", Json.bool true)])) =
      .ok (some scenarioC10Cfg) ∧
    (scenarioC10Cfg.try_new_peers = true ∧
      scenarioC10Cfg.chain = .Mainnet ∧ scenarioC10Cfg.unknown = Json.null) :=
  ⟨rfl,
    (prepare_persists_fresh_default
      { network := .Mainnet, seed_peers_ignored := [], seed_peers_extra := [],
        seed_peers_amount := 5 }
      ⟨some [ipA], none, none⟩ (fun _ => some 7) false
      (some (Json.obj [("stale_field", Json.bool true)])) none
      scenarioC10Cfg).2 rfl⟩

/-! ## Helper lemmas: the prober's ranking -/

/-- Strict ranking order on `(index, latency)` pairs: ascending latency,
ties in ascending discovery (input) order. -/
def latLex (a b : Nat × Nat) : Prop := a.2 < b.2 ∨ (a.2 = b.2 ∧ a.1 < b.1)

theorem successfulNodes_pairwise_idx (outcomes : List (Option Nat)) :
    (successfulNodes outcomes).Pairwise (fun a b => a.1 < b.1) := by
  unfold successfulNodes
  rw [List.pairwise_filterMap]
  have h1 : (outcomes.enum.map Prod.fst).Pairwise (· < ·) := by
    rw [List.enum_map_fst]
    exact List.pairwise_lt_range _
  have h2 := List.pairwise_map.mp h1
  refine h2.imp ?_
  intro a b hab x hx y hy
  rcases Option.map_eq_some'.mp (Option.mem_def.mp hx) with ⟨la, -, hxa⟩
  rcases Option.map_eq_some'.mp (Option.mem_def.mp hy) with ⟨lb, -, hyb⟩
  subst hxa; subst hyb
  exact hab

theorem latLex_snd_le {a b : Nat × Nat} (h : latLex a b) : a.2 ≤ b.2 := by
  rcases h with h | ⟨h, -⟩
  · exact Nat.le_of_lt h
  · exact Nat.le_of_eq h

theorem pairwise_latLex_orderedInsert (x : Nat × Nat) (l : List (Nat × Nat))
    (hl : l.Pairwise latLex) (hx : ∀ y ∈ l, x.1 < y.1) :
    (List.orderedInsert latLe x l).Pairwise latLex := by
  induction l with
  | nil => simp [List.orderedInsert]
  | cons y ys ih =>
    rcases List.pairwise_cons.mp hl with ⟨hhead, htail⟩
    rw [List.orderedInsert]
    by_cases hxy : latLe x y
    · rw [if_pos hxy]
      refine List.pairwise_cons.mpr ⟨?_, hl⟩
      intro z hz
      rcases List.mem_cons.mp hz with hzy | hz
      · subst hzy
        rcases Nat.lt_or_ge x.2 z.2 with hlt | hge
        · exact Or.inl hlt
        · exact Or.inr ⟨Nat.le_antisymm hxy hge, hx z (List.mem_cons_self z ys)⟩
      · have hxz : x.2 ≤ z.2 := Nat.le_trans hxy (latLex_snd_le (hhead z hz))
        rcases Nat.lt_or_ge x.2 z.2 with hlt | hge
        · exact Or.inl hlt
        · exact Or.inr ⟨Nat.le_antisymm hxz hge,
            hx z (List.mem_cons_of_mem y hz)⟩
    · rw [if_neg hxy]
      have hyx : y.2 < x.2 := Nat.lt_of_not_le hxy
      refine List.pairwise_cons.mpr ⟨?_, ?_⟩
      · intro z hz
        rcases (List.mem_orderedInsert latLe).mp hz with hzx | hz
        · subst hzx
          exact Or.inl hyx
        · exact hhead z hz
      · exact ih htail (fun z hz => hx z (List.mem_cons_of_mem y hz))

theorem pairwise_latLex_insertionSort (l : List (Nat × Nat))
    (h : l.Pairwise (fun a b => a.1 < b.1)) :
    (List.insertionSort latLe l).Pairwise latLex := by
  induction l with
  | nil => simp [List.insertionSort]
  | cons x xs ih =>
    rcases List.pairwise_cons.mp h with ⟨hhead, htail⟩
    rw [List.insertionSort]
    refine pairwise_latLex_orderedInsert x _ (ih htail) ?_
    intro y hy
    exact hhead y ((List.perm_insertionSort latLe xs).mem_iff.mp hy)

/-- The prober's ranked success list is ordered by latency with ties in
discovery order. -/
theorem speedtestRanked_pairwise (outcomes : List (Option Nat)) :
    (speedtestRanked outcomes).Pairwise latLex :=
  pairwise_latLex_insertionSort _ (successfulNodes_pairwise_idx outcomes)

theorem successfulNodes_eq_nil (outcomes : List (Option Nat))
    (h : ∀ o ∈ outcomes, o = none) : successfulNodes outcomes = [] := by
  unfold successfulNodes
  rw [List.filterMap_eq_nil_iff]
  rintro ⟨i, o⟩ hmem
  obtain ⟨-, hlt, hx⟩ := List.mem_enumFrom hmem
  have ho : o ∈ outcomes := by
    rw [hx]
    exact List.getElem_mem _
  rw [h o ho]
  rfl

/-- C4.  The prober (i) never returns more than `n` peers; (ii) every
latency in the returned (taken) part of the ranking is `≤` every latency in
the non-returned (dropped) successfully-probed part; (iii) the returned
ranking is ordered by latency with equal-latency entries in their original
discovery order; (iv) when every probe fails or times out the result is the
empty list (an `Ok`, not an error — the embedded function is total). -/
theorem speedtest_nodes_spec (candidates : List HyperliquidSeedPeer) (n : Nat)
    (outcomes : List (Option Nat)) :
    (speedtest_nodes candidates n outcomes).length ≤ n ∧
    (∀ p ∈ (speedtestRanked outcomes).take
        (min n (speedtestRanked outcomes).length),
      ∀ q ∈ (speedtestRanked outcomes).drop
        (min n (speedtestRanked outcomes).length), p.2 ≤ q.2) ∧
    ((speedtestRanked outcomes).take
        (min n (speedtestRanked outcomes).length)).Pairwise latLex ∧
    ((∀ o ∈ outcomes, o = none) →
      speedtest_nodes candidates n outcomes = []) := by
  refine ⟨?_, ?_, ?_, ?_⟩
  · unfold speedtest_nodes
    dsimp only
    have h1 := List.length_filterMap_le
      (fun p : Nat × Nat => candidates[p.1]?)
      ((speedtestRanked outcomes).take
        (min n (speedtestRanked outcomes).length))
    have h2 : ((speedtestRanked outcomes).take
        (min n (speedtestRanked outcomes).length)).length ≤ n := by
      rw [List.length_take]
      omega
    omega
  · have hp := speedtestRanked_pairwise outcomes
    rw [← List.take_append_drop (min n (speedtestRanked outcomes).length)
      (speedtestRanked outcomes)] at hp
    have hsplit := (List.pairwise_append).mp hp
    intro p hp' q hq'
    exact latLex_snd_le (hsplit.2.2 p hp' q hq')
  · exact List.Pairwise.sublist (List.take_sublist _ _)
      (speedtestRanked_pairwise outcomes)
  · intro hall
    unfold speedtest_nodes speedtestRanked
    rw [successfulNodes_eq_nil outcomes hall]
    simp [List.insertionSort]

/-- C4 witness: two candidates whose probes both fail; the prober returns
the empty list. -/
theorem speedtest_nodes_spec_witness :
    (∀ o ∈ ([none, none] : List (Option Nat)), o = none) ∧
    speedtest_nodes
        [{ operator_name := "Hyperliquid API-provided IP", ip := ipA },
         { operator_name := "manual", ip := ⟨10, 0, 0, 1⟩ }] 5
        [none, none] = [] :=
  ⟨by simp,
    (speedtest_nodes_spec
      [{ operator_name := "Hyperliquid API-provided IP", ip := ipA },
       { operator_name := "manual", ip := ⟨10, 0, 0, 1⟩ }] 5
      [none, none]).2.2.2 (by simp)⟩

/-! ## Helper lemmas: index validity and uniqueness through the prober -/

theorem successfulNodes_idx_lt (outcomes : List (Option Nat)) :
    ∀ p ∈ successfulNodes outcomes, p.1 < outcomes.length := by
  intro p hp
  unfold successfulNodes at hp
  rcases List.mem_filterMap.mp hp with ⟨⟨i, o⟩, hmem, hf⟩
  obtain ⟨-, hlt, -⟩ := List.mem_enumFrom hmem
  rcases Option.map_eq_some'.mp hf with ⟨lat, -, heq⟩
  subst heq
  simpa using hlt

theorem speedtestRanked_idx_lt (outcomes : List (Option Nat)) :
    ∀ p ∈ speedtestRanked outcomes, p.1 < outcomes.length := fun p hp =>
  successfulNodes_idx_lt outcomes p
    ((List.perm_insertionSort latLe _).mem_iff.mp hp)

theorem speedtestRanked_map_fst_nodup (outcomes : List (Option Nat)) :
    ((speedtestRanked outcomes).map Prod.fst).Nodup := by
  have h1 : ((successfulNodes outcomes).map Prod.fst).Nodup := by
    have := successfulNodes_pairwise_idx outcomes
    exact List.Pairwise.imp Nat.ne_of_lt (List.pairwise_map.mpr this)
  exact (((List.perm_insertionSort latLe
    (successfulNodes outcomes)).map Prod.fst).nodup_iff).mpr h1

theorem filterMap_getElem_eq_map (l : List (Nat × Nat))
    (cs : List HyperliquidSeedPeer) (d : HyperliquidSeedPeer)
    (h : ∀ p ∈ l, p.1 < cs.length) :
    l.filterMap (fun p => cs[p.1]?) =
      l.map (fun p => (cs[p.1]?).getD d) := by
  induction l with
  | nil => rfl
  | cons x xs ih =>
    have hx : x.1 < cs.length := h x (List.mem_cons_self x xs)
    rw [List.filterMap_cons, List.map_cons, List.getElem?_eq_getElem hx]
    simp only [Option.getD_some]
    rw [ih (fun p hp => h p (List.mem_cons_of_mem x hp))]

/-- C2 (amended, core lemma).  When the probed candidate list has pairwise
distinct addresses, the prober's selection has pairwise distinct addresses:
a selected peer is a candidate at a distinct index for each entry. -/
theorem speedtest_nodes_ips_nodup (candidates : List HyperliquidSeedPeer)
    (n : Nat) (outcomes : List (Option Nat))
    (hlen : outcomes.length = candidates.length)
    (hnodup : (candidates.map (fun p => p.ip)).Nodup) :
    ((speedtest_nodes candidates n outcomes).map (fun p => p.ip)).Nodup := by
  unfold speedtest_nodes
  dsimp only
  set k := min n (speedtestRanked outcomes).length with hk
  have hidx : ∀ p ∈ (speedtestRanked outcomes).take k, p.1 < candidates.length := by
    intro p hp
    have := speedtestRanked_idx_lt outcomes p (List.take_subset k _ hp)
    omega
  rw [filterMap_getElem_eq_map _ _ { operator_name := "", ip := ipA } hidx,
    List.map_map]
  have htakefst : (((speedtestRanked outcomes).take k).map Prod.fst).Nodup := by
    rw [List.map_take]
    exact (List.take_sublist k _).nodup (speedtestRanked_map_fst_nodup outcomes)
  refine List.Nodup.map_on ?_ (List.Nodup.of_map Prod.fst htakefst)
  intro p hp q hq heq
  have hp1 : p.1 < candidates.length := hidx p hp
  have hq1 : q.1 < candidates.length := hidx q hq
  have heq' : candidates[p.1].ip = candidates[q.1].ip := by
    have ep : (candidates[p.1]?).getD { operator_name := "", ip := ipA } =
        candidates[p.1] := by rw [List.getElem?_eq_getElem hp1]; rfl
    have eq' : (candidates[q.1]?).getD { operator_name := "", ip := ipA } =
        candidates[q.1] := by rw [List.getElem?_eq_getElem hq1]; rfl
    simpa [Function.comp, ep, eq'] using heq
  have hmap : (candidates.map (fun p => p.ip)).get ⟨p.1, by simpa using hp1⟩ =
      (candidates.map (fun p => p.ip)).get ⟨q.1, by simpa using hq1⟩ := by
    simp only [List.get_eq_getElem, List.getElem_map]
    exact heq'
  have hij : p.1 = q.1 := congrArg Fin.val ((hnodup.get_inj_iff).mp hmap)
  exact List.inj_on_of_nodup_map htakefst hp hq hij

/-- The document persisted by the duplicate-address C2 scenario. -/
def scenarioC2Cfg : OverrideGossipConfig :=
  { root_node_ips := [⟨ipA⟩, ⟨ipA⟩]
    try_new_peers := true
    chain := .Mainnet
    n_gossip_peers := none
    unknown := Json.null }

/-- C2.  The claim asserts every persisted document has duplicate-free
`root_node_ips`.  Counterexample: the same address arrives from the API
source and from the markdown source (distinct labels, so the `HashSet`
keeps both), both probes succeed, and the persisted document lists the
address twice. -/
theorem root_node_ips_duplicate_counterexample :
    prepare_hl_node
        { network := .Mainnet, seed_peers_ignored := [], seed_peers_extra := [],
          seed_peers_amount := 5 }
        ⟨some [ipA], some [("Operator B", ipA)], none⟩
        (fun i => some i) false none = .ok (some scenarioC2Cfg) ∧
    ¬ (scenarioC2Cfg.root_node_ips.map (fun n => n.ip)).Nodup :=
  ⟨rfl, by decide⟩

/-- C2 (amended).  `root_node_ips` is exactly the prober's selection; it is
duplicate-free whenever the probed candidate set (discovered peers plus
operator-supplied extras) has pairwise-distinct addresses, but the pipeline
itself does not deduplicate that set by address. -/
theorem root_node_ips_nodup_of_distinct (args : PrepareArgs) (env : FetchEnv)
    (probe : Nat → Option Nat) (fresh : Bool) (priorFile : Option Json)
    (cfg : OverrideGossipConfig)
    (h : prepare_hl_node args env probe fresh priorFile = .ok (some cfg))
    (hdist : ∀ fetched,
      fetch_hyperliquid_seed_peers args.network env args.seed_peers_ignored =
        some fetched →
      ((fetched ++ args.seed_peers_extra.map
          (fun ip => ({ operator_name := "manual", ip := ip } :
            HyperliquidSeedPeer))).map (fun p => p.ip)).Nodup) :
    (cfg.root_node_ips.map (fun n => n.ip)).Nodup := by
  unfold prepare_hl_node at h
  split at h
  · exact absurd (Except.ok.inj h) (by simp)
  split at h
  · exact Except.noConfusion h
  next fetched heq =>
  dsimp only at h
  split at h
  · have hc := Option.some.inj (Except.ok.inj h)
    subst hc
    simp [OverrideGossipConfig.new]
  split at h
  · exact Except.noConfusion h
  have hn := speedtest_nodes_ips_nodup
    (fetched ++ args.seed_peers_extra.map
      (fun ip => ({ operator_name := "manual", ip := ip } :
        HyperliquidSeedPeer)))
    args.seed_peers_amount
    ((List.range (fetched ++ args.seed_peers_extra.map
      (fun ip => ({ operator_name := "manual", ip := ip } :
        HyperliquidSeedPeer))).length).map probe)
    (by simp) (hdist fetched heq)
  split at h
  · have hc := Option.some.inj (Except.ok.inj h)
    subst hc
    simpa [List.map_map, Function.comp] using hn
  · have hc := Option.some.inj (Except.ok.inj h)
    subst hc
    simpa [List.map_map, Function.comp] using hn

/-- Second fixed address for the C2 witness scenario. -/
def ipB : Ipv4 := ⟨10, 0, 0, 1⟩

/-- The document persisted by the distinct-address C2 witness scenario:
the lower-latency peer ranks first. -/
def scenarioC2WCfg : OverrideGossipConfig :=
  { root_node_ips := [⟨ipB⟩, ⟨ipA⟩]
    try_new_peers := true
    chain := .Testnet
    n_gossip_peers := none
    unknown := Json.null }

/-- C2 witness: a testnet run over two distinct addresses; the persisted
`root_node_ips` is duplicate-free. -/
theorem root_node_ips_nodup_of_distinct_witness :
    prepare_hl_node
        { network := .Testnet, seed_peers_ignored := [], seed_peers_extra := [],
          seed_peers_amount := 2 }
        ⟨none, none, some [ipA, ipB]⟩ (fun i => some (10 - i)) false none =
      .ok (some scenarioC2WCfg) ∧
    (scenarioC2WCfg.root_node_ips.map (fun n => n.ip)).Nodup :=
  ⟨rfl,
    root_node_ips_nodup_of_distinct
      { network := .Testnet, seed_peers_ignored := [], seed_peers_extra := [],
        seed_peers_amount := 2 }
      ⟨none, none, some [ipA, ipB]⟩ (fun i => some (10 - i)) false none
      scenarioC2WCfg rfl
      (by
        intro fetched hf
        have he : ([{ operator_name := "Imperator.co", ip := ipA },
            { operator_name := "Imperator.co", ip := ipB }] :
            List HyperliquidSeedPeer) = fetched := Option.some.inj hf
        subst he
        decide)⟩

/-! ## Helper lemmas: the prune walk -/

/-- The conditions, besides not sitting directly in the watched root, under
which one prune cycle marks a file of age `now - m`. -/
def markCond (cutoff now : Nat) (p : List String) (m : Nat) : Prop :=
  p.getLast? ≠ some "visor_child_stderr" ∧ pruneShouldRemove cutoff now m = true

theorem allFiles_length_aux (fuel : Nat) : ∀ entries : List FsEntry,
    sizeOf entries ≤ fuel →
    (∀ pre p m, (p, m) ∈ allFilesIn pre entries → pre.length + 1 ≤ p.length) ∧
    (∀ pre p m, (p, m) ∈ allFilesSub pre entries →
      pre.length + 2 ≤ p.length) := by
  induction fuel with
  | zero =>
    intro entries h
    exact absurd h (by cases entries <;> simp)
  | succ n ih =>
    intro entries h
    have hsub : ∀ pre p m, (p, m) ∈ allFilesSub pre entries →
        pre.length + 2 ≤ p.length := by
      intro pre p m hm
      match entries, h with
      | [], _ => simp [allFilesSub] at hm
      | .file name mtime :: rest, h =>
        rw [allFilesSub] at hm
        have hr : sizeOf rest ≤ n := by
          have := List.cons.sizeOf_spec (FsEntry.file name mtime) rest
          omega
        exact (ih rest hr).2 pre p m hm
      | .dir name children :: rest, h =>
        rw [allFilesSub] at hm
        have hszc : sizeOf children ≤ n := by
          have h1 := List.cons.sizeOf_spec (FsEntry.dir name children) rest
          have h2 : sizeOf (FsEntry.dir name children) =
              1 + sizeOf name + sizeOf children := by
            simp [FsEntry.dir.sizeOf_spec]
          omega
        have hszr : sizeOf rest ≤ n := by
          have h1 := List.cons.sizeOf_spec (FsEntry.dir name children) rest
          omega
        rcases List.mem_append.mp hm with hm | hm
        · have := (ih children hszc).1 (pre ++ [name]) p m hm
          simpa using this
        · exact (ih rest hszr).2 pre p m hm
    refine ⟨?_, hsub⟩
    intro pre p m hm
    rw [allFilesIn] at hm
    rcases List.mem_append.mp hm with hm | hm
    · rcases List.mem_filterMap.mp hm with ⟨e, -, he⟩
      cases e with
      | file name mtime =>
        simp only at he
        have : p = pre ++ [name] := by
          have := Option.some.inj he
          exact (congrArg Prod.fst this).symm
        subst this
        simp
      | dir name children => simp at he
    · have := hsub pre p m hm
      omega

theorem fileMark_eq_some_iff (cutoff now : Nat) (atRoot : Bool)
    (pre : List String) (e : FsEntry) (p : List String) :
    fileMark cutoff now atRoot pre e = some p ↔
      ∃ name mtime, e = .file name mtime ∧ atRoot = false ∧
        name ≠ "visor_child_stderr" ∧
        pruneShouldRemove cutoff now mtime = true ∧ p = pre ++ [name] := by
  cases e with
  | dir name children => simp [fileMark]
  | file name mtime =>
    rw [fileMark]
    constructor
    · intro h
      split at h
      · exact Option.noConfusion h
      split at h
      · exact Option.noConfusion h
      split at h
      · next hroot hprot hage =>
        refine ⟨name, mtime, rfl, ?_, hprot, hage, (Option.some.inj h).symm⟩
        revert hroot
        cases atRoot <;> simp
      · exact Option.noConfusion h
    · rintro ⟨name', mtime', he, hroot, hprot, hage, hp⟩
      obtain ⟨rfl, rfl⟩ : name' = name ∧ mtime' = mtime := by
        have h1 := congrArg (fun e => match e with
          | FsEntry.file n _ => n
          | FsEntry.dir n _ => n) he
        have h2 := congrArg (fun e => match e with
          | FsEntry.file _ m => m
          | FsEntry.dir _ _ => 0) he
        exact ⟨h1.symm, h2.symm⟩
      subst hroot
      subst hp
      simp [hprot, hage]

theorem collect_mem_aux (cutoff now : Nat) (fuel : Nat) :
    ∀ entries : List FsEntry, sizeOf entries ≤ fuel →
    (∀ atRoot pre p,
      p ∈ collect_files_recursive cutoff now atRoot pre entries ↔
        ∃ m, (p, m) ∈ allFilesIn pre entries ∧
          (atRoot = true → pre.length + 2 ≤ p.length) ∧
          markCond cutoff now p m) ∧
    (∀ pre p, p ∈ subdirMarks cutoff now pre entries ↔
      ∃ m, (p, m) ∈ allFilesSub pre entries ∧ markCond cutoff now p m) := by
  induction fuel with
  | zero =>
    intro entries h
    exact absurd h (by cases entries <;> simp)
  | succ n ih =>
    intro entries h
    have hsub : ∀ pre p, p ∈ subdirMarks cutoff now pre entries ↔
        ∃ m, (p, m) ∈ allFilesSub pre entries ∧ markCond cutoff now p m := by
      intro pre p
      match entries, h with
      | [], _ => simp [subdirMarks, allFilesSub]
      | .file name mtime :: rest, h =>
        have hr : sizeOf rest ≤ n := by
          have := List.cons.sizeOf_spec (FsEntry.file name mtime) rest
          omega
        rw [subdirMarks, allFilesSub]
        exact (ih rest hr).2 pre p
      | .dir name children :: rest, h =>
        have hszc : sizeOf children ≤ n := by
          have h1 := List.cons.sizeOf_spec (FsEntry.dir name children) rest
          have h2 : sizeOf (FsEntry.dir name children) =
              1 + sizeOf name + sizeOf children := by
            simp [FsEntry.dir.sizeOf_spec]
          omega
        have hszr : sizeOf rest ≤ n := by
          have h1 := List.cons.sizeOf_spec (FsEntry.dir name children) rest
          omega
        rw [subdirMarks, allFilesSub]
        rw [List.mem_append]
        constructor
        · rintro (hm | hm)
          · rcases ((ih children hszc).1 false (pre ++ [name]) p).mp hm with
              ⟨m, hmem, -, hcond⟩
            exact ⟨m, List.mem_append.mpr (Or.inl hmem), hcond⟩
          · rcases ((ih rest hszr).2 pre p).mp hm with ⟨m, hmem, hcond⟩
            exact ⟨m, List.mem_append.mpr (Or.inr hmem), hcond⟩
        · rintro ⟨m, hmem, hcond⟩
          rcases List.mem_append.mp hmem with hm | hm
          · exact Or.inl (((ih children hszc).1 false (pre ++ [name]) p).mpr
              ⟨m, hm, by simp, hcond⟩)
          · exact Or.inr (((ih rest hszr).2 pre p).mpr ⟨m, hm, hcond⟩)
    refine ⟨?_, hsub⟩
    intro atRoot pre p
    rw [collect_files_recursive, allFilesIn]
    rw [List.mem_append]
    constructor
    · rintro (hm | hm)
      · rcases List.mem_filterMap.mp hm with ⟨e, he, hfe⟩
        rcases (fileMark_eq_some_iff cutoff now atRoot pre e p).mp hfe with
          ⟨name, mtime, rfl, hroot, hprot, hage, hp⟩
        refine ⟨mtime, ?_, ?_, ?_, hage⟩
        · refine List.mem_append.mpr (Or.inl ?_)
          refine List.mem_filterMap.mpr ⟨.file name mtime, he, ?_⟩
          simp [hp]
        · intro htrue
          rw [hroot] at htrue
          exact Bool.noConfusion htrue
        · rw [hp, List.getLast?_concat]
          intro hc
          exact hprot (Option.some.inj hc)
      · rcases (hsub pre p).mp hm with ⟨m, hmem, hcond⟩
        refine ⟨m, List.mem_append.mpr (Or.inr hmem), ?_, hcond⟩
        intro _
        exact (allFiles_length_aux (n + 1) entries h).2 pre p m hmem
    · rintro ⟨m, hmem, himp, hprot, hage⟩
      rcases List.mem_append.mp hmem with hm | hm
      · rcases List.mem_filterMap.mp hm with ⟨e, he, hfe⟩
        cases e with
        | dir name children => simp at hfe
        | file name mtime =>
          simp only at hfe
          have hpm := Option.some.inj hfe
          have hp : p = pre ++ [name] := (congrArg Prod.fst hpm).symm
          have hmeq : m = mtime := (congrArg Prod.snd hpm).symm
          subst hmeq
          cases hroot : atRoot with
          | true =>
            exfalso
            have := himp hroot
            rw [hp] at this
            simp at this
          | false =>
            refine Or.inl (List.mem_filterMap.mpr ⟨.file name m, he, ?_⟩)
            refine (fileMark_eq_some_iff cutoff now false pre _ p).mpr
              ⟨name, m, rfl, rfl, ?_, hage, hp⟩
            intro hname
            apply hprot
            rw [hp, List.getLast?_concat, hname]
      · exact Or.inr ((hsub pre p).mpr ⟨m, hm, hprot, hage⟩)

/-- The directory tree of the spec's prune example: one old file directly in
the watched root, and a subdirectory holding a 2-hour-old file, a
30-minute-old file, and an old protected `visor_child_stderr`
(`now = 10000`, threshold one hour). -/
def exampleTree : List FsEntry :=
  [.file "base_file.txt" 2800,
   .dir "subdir"
     [.file "old_file.txt" 2800,
      .file "new_file.txt" 8200,
      .file "visor_child_stderr" 2800]]

/-- C8.  One prune cycle marks a regular file for deletion iff it does not
reside directly in the watched root (its path has at least two components),
its name is not `visor_child_stderr`, and its age strictly exceeds the
retention threshold; only paths of regular files are ever marked
(directories are never deleted).  The second conjunct is the spec's
scenario: of the files above, exactly the 2-hour-old, non-protected,
non-root file is deleted. -/
theorem run_cleanup_marks_iff :
    (∀ (cutoff now : Nat) (baseEntries : List FsEntry) (p : List String),
      p ∈ run_cleanup cutoff now baseEntries ↔
        ∃ m, (p, m) ∈ allFilesIn [] baseEntries ∧ 2 ≤ p.length ∧
          p.getLast? ≠ some "visor_child_stderr" ∧
          pruneShouldRemove cutoff now m = true) ∧
    run_cleanup 3600 10000 exampleTree = [["subdir", "old_file.txt"]] := by
  constructor
  · intro cutoff now baseEntries p
    have hiff := (collect_mem_aux cutoff now (sizeOf baseEntries) baseEntries
      le_rfl).1 true [] p
    rw [run_cleanup, hiff]
    constructor
    · rintro ⟨m, hmem, himp, hprot, hage⟩
      exact ⟨m, hmem, by simpa using himp rfl, hprot, hage⟩
    · rintro ⟨m, hmem, hlen, hprot, hage⟩
      exact ⟨m, hmem, fun _ => by simpa using hlen, hprot, hage⟩
  · simp [run_cleanup, exampleTree, collect_files_recursive, subdirMarks,
      fileMark, pruneShouldRemove]

/-! ## Helper lemmas: dotted-quad round trip -/

set_option maxRecDepth 10000 in
theorem parseOctet_repr :
    ∀ n : Fin 256, parseOctet (Nat.repr n.val).toList = some n.val ∧
      '.' ∉ (Nat.repr n.val).toList := by
  decide

theorem splitDot_no_dot (xs : List Char) (h : '.' ∉ xs) :
    splitDot xs = [xs] := by
  induction xs with
  | nil => rfl
  | cons c rest ih =>
    rw [splitDot]
    rw [if_neg (fun hc => h (List.mem_cons.mpr (Or.inl hc.symm)))]
    rw [ih (fun hr => h (List.mem_cons_of_mem c hr))]

theorem splitDot_append (xs ys : List Char) (h : '.' ∉ xs) :
    splitDot (xs ++ '.' :: ys) = xs :: splitDot ys := by
  induction xs with
  | nil =>
    simp only [List.nil_append]
    rw [splitDot, if_pos rfl]
  | cons c rest ih =>
    rw [List.cons_append, splitDot]
    rw [if_neg (fun hc => h (List.mem_cons.mpr (Or.inl hc.symm)))]
    rw [ih (fun hr => h (List.mem_cons_of_mem c hr))]

theorem parseIpv4_roundtrip (ip : Ipv4) :
    parseIpv4 (ipv4ToString ip) = some ip := by
  obtain ⟨a, b, c, d⟩ := ip
  have ha := parseOctet_repr a
  have hb := parseOctet_repr b
  have hc := parseOctet_repr c
  have hd := parseOctet_repr d
  have hsplit : (ipv4ToString ⟨a, b, c, d⟩).toList =
      (Nat.repr a.val).toList ++ '.' ::
        ((Nat.repr b.val).toList ++ '.' ::
          ((Nat.repr c.val).toList ++ '.' :: (Nat.repr d.val).toList)) := by
    have hflat : (ipv4ToString ⟨a, b, c, d⟩).toList =
        ((((((Nat.repr a.val).toList ++ ['.']) ++ (Nat.repr b.val).toList) ++
          ['.']) ++ (Nat.repr c.val).toList) ++ ['.']) ++
            (Nat.repr d.val).toList := rfl
    rw [hflat]
    simp [List.append_assoc]
  rw [parseIpv4, hsplit, splitDot_append _ _ ha.2]
  rw [splitDot_append _ _ hb.2, splitDot_append _ _ hc.2,
    splitDot_no_dot _ hd.2]
  simp only [ha.1, hb.1, hc.1, hd.1]
  rw [dif_pos ⟨Nat.le_of_lt_succ a.isLt, Nat.le_of_lt_succ b.isLt,
    Nat.le_of_lt_succ c.isLt, Nat.le_of_lt_succ d.isLt⟩]

/-! ## Helper lemmas: document round trip -/

theorem getField_cons_self (k : String) (v : Json)
    (rest : List (String × Json)) : getField ((k, v) :: rest) k = some v := by
  simp [getField]

theorem getField_cons_ne (k k' : String) (v : Json)
    (rest : List (String × Json)) (h : k' ≠ k) :
    getField ((k', v) :: rest) k = getField rest k := by
  simp [getField, List.find?_cons, h]

theorem nodeIp_roundtrip (n : NodeIp) :
    NodeIp.fromJson (NodeIp.toJson n) = some n := by
  rw [NodeIp.toJson, NodeIp.fromJson]
  rw [getField_cons_self]
  simp [parseIpv4_roundtrip]

theorem mapM_nodeIp_roundtrip (l : List NodeIp) :
    (l.map NodeIp.toJson).mapM NodeIp.fromJson = some l := by
  induction l with
  | nil => rfl
  | cons n rest ih =>
    rw [List.map_cons, List.mapM_cons, nodeIp_roundtrip, ih]
    rfl

theorem chain_roundtrip (c : HyperliquidChain) :
    HyperliquidChain.fromJson (.str c.toStr) = some c := by
  cases c <;> rfl

theorem getField_filter_recognized (fields : List (String × Json))
    (k : String) (hk : k ∈ recognizedKeys) :
    getField (fields.filter (fun kv => kv.1 ∉ recognizedKeys)) k = none := by
  rw [getField, Option.map_eq_none', List.find?_eq_none]
  intro kv hkv
  have := List.of_mem_filter hkv
  simp only [decide_not, Bool.not_eq_true', decide_eq_false_iff_not] at this
  simp only [decide_eq_true_eq]
  intro heq
  exact this (heq ▸ hk)

theorem filter_unrecognized_idem (fields : List (String × Json)) :
    ((fields.filter (fun kv => kv.1 ∉ recognizedKeys)).filter
      (fun kv => kv.1 ∉ recognizedKeys)) =
      fields.filter (fun kv => kv.1 ∉ recognizedKeys) := by
  rw [List.filter_filter]
  simp

theorem parseNGossipPeers_lt (fields : List (String × Json)) (n : Nat)
    (h : parseNGossipPeers fields = some (some n)) : n < 65536 := by
  rw [parseNGossipPeers] at h
  split at h
  · exact absurd (Option.some.inj h) (by simp)
  · exact absurd (Option.some.inj h) (by simp)
  · next m =>
    split at h
    · next hlt =>
      have hmn := Option.some.inj (Option.some.inj h)
      omega
    · exact Option.noConfusion h
  · exact Option.noConfusion h

/-- C7.  A document that deserializes to a configuration re-serializes to a
document that deserializes back to the very same configuration (peer list,
chain, flags, and the unknown-field map all round-trip exactly), and every
unrecognized top-level field of the original document reappears unchanged in
the re-serialized document. -/
theorem config_roundtrip (fields : List (String × Json))
    (c : OverrideGossipConfig)
    (h : OverrideGossipConfig.fromJson (.obj fields) = some c) :
    OverrideGossipConfig.fromJson c.toJson = some c ∧
    ∀ kv ∈ fields, kv.1 ∉ recognizedKeys → kv ∈ c.toJsonFields := by
  rw [OverrideGossipConfig.fromJson] at h
  cases hroot : parseRootNodeIps fields with
  | none => rw [hroot] at h; exact Option.noConfusion h
  | some root =>
  cases htry : parseTryNewPeers fields with
  | none => rw [hroot, htry] at h; exact Option.noConfusion h
  | some tnp =>
  cases hchain : parseChain fields with
  | none => rw [hroot, htry, hchain] at h; exact Option.noConfusion h
  | some chain =>
  cases hng : parseNGossipPeers fields with
  | none => rw [hroot, htry, hchain, hng] at h; exact Option.noConfusion h
  | some ng =>
  rw [hroot, htry, hchain, hng] at h
  have hc := (Option.some.inj h).symm
  subst hc
  constructor
  · cases hngv : ng with
    | none =>
      rw [OverrideGossipConfig.toJson, OverrideGossipConfig.fromJson,
        OverrideGossipConfig.toJsonFields]
      simp only [List.nil_append, List.cons_append]
      have p1 : parseRootNodeIps
          (("root_node_ips", Json.arr (root.map NodeIp.toJson)) ::
            ("try_new_peers", Json.bool tnp) ::
            ("chain", Json.str chain.toStr) ::
            fields.filter (fun kv => kv.1 ∉ recognizedKeys)) = some root := by
        rw [parseRootNodeIps, getField_cons_self]
        exact mapM_nodeIp_roundtrip root
      have p2 : parseTryNewPeers
          (("root_node_ips", Json.arr (root.map NodeIp.toJson)) ::
            ("try_new_peers", Json.bool tnp) ::
            ("chain", Json.str chain.toStr) ::
            fields.filter (fun kv => kv.1 ∉ recognizedKeys)) = some tnp := by
        rw [parseTryNewPeers, getField_cons_ne _ _ _ _ (by decide),
          getField_cons_self]
      have p3 : parseChain
          (("root_node_ips", Json.arr (root.map NodeIp.toJson)) ::
            ("try_new_peers", Json.bool tnp) ::
            ("chain", Json.str chain.toStr) ::
            fields.filter (fun kv => kv.1 ∉ recognizedKeys)) = some chain := by
        rw [parseChain, getField_cons_ne _ _ _ _ (by decide),
          getField_cons_ne _ _ _ _ (by decide), getField_cons_self]
        exact chain_roundtrip chain
      have p4 : parseNGossipPeers
          (("root_node_ips", Json.arr (root.map NodeIp.toJson)) ::
            ("try_new_peers", Json.bool tnp) ::
            ("chain", Json.str chain.toStr) ::
            fields.filter (fun kv => kv.1 ∉ recognizedKeys)) = some none := by
        rw [parseNGossipPeers, getField_cons_ne _ _ _ _ (by decide),
          getField_cons_ne _ _ _ _ (by decide),
          getField_cons_ne _ _ _ _ (by decide),
          getField_filter_recognized _ _ (by decide)]
      rw [p1, p2, p3, p4]
      simp [recognizedKeys, filter_unrecognized_idem]
    | some n =>
      have hnlt : n < 65536 := parseNGossipPeers_lt fields n (hngv ▸ hng)
      rw [OverrideGossipConfig.toJson, OverrideGossipConfig.fromJson,
        OverrideGossipConfig.toJsonFields]
      simp only [List.nil_append, List.cons_append, List.singleton_append]
      have p1 : parseRootNodeIps
          (("root_node_ips", Json.arr (root.map NodeIp.toJson)) ::
            ("try_new_peers", Json.bool tnp) ::
            ("chain", Json.str chain.toStr) ::
            ("n_gossip_peers", Json.num n) ::
            fields.filter (fun kv => kv.1 ∉ recognizedKeys)) = some root := by
        rw [parseRootNodeIps, getField_cons_self]
        exact mapM_nodeIp_roundtrip root
      have p2 : parseTryNewPeers
          (("root_node_ips", Json.arr (root.map NodeIp.toJson)) ::
            ("try_new_peers", Json.bool tnp) ::
            ("chain", Json.str chain.toStr) ::
            ("n_gossip_peers", Json.num n) ::
            fields.filter (fun kv => kv.1 ∉ recognizedKeys)) = some tnp := by
        rw [parseTryNewPeers, getField_cons_ne _ _ _ _ (by decide),
          getField_cons_self]
      have p3 : parseChain
          (("root_node_ips", Json.arr (root.map NodeIp.toJson)) ::
            ("try_new_peers", Json.bool tnp) ::
            ("chain", Json.str chain.toStr) ::
            ("n_gossip_peers", Json.num n) ::
            fields.filter (fun kv => kv.1 ∉ recognizedKeys)) = some chain := by
        rw [parseChain, getField_cons_ne _ _ _ _ (by decide),
          getField_cons_ne _ _ _ _ (by decide), getField_cons_self]
        exact chain_roundtrip chain
      have p4 : parseNGossipPeers
          (("root_node_ips", Json.arr (root.map NodeIp.toJson)) ::
            ("try_new_peers", Json.bool tnp) ::
            ("chain", Json.str chain.toStr) ::
            ("n_gossip_peers", Json.num n) ::
            fields.filter (fun kv => kv.1 ∉ recognizedKeys)) =
            some (some n) := by
        rw [parseNGossipPeers, getField_cons_ne _ _ _ _ (by decide),
          getField_cons_ne _ _ _ _ (by decide),
          getField_cons_ne _ _ _ _ (by decide), getField_cons_self]
        exact if_pos hnlt
      rw [p1, p2, p3, p4]
      simp [recognizedKeys, filter_unrecognized_idem]
  · intro kv hkv hunrec
    rw [OverrideGossipConfig.toJsonFields]
    refine List.mem_append.mpr (Or.inr ?_)
    exact List.mem_filter.mpr ⟨hkv, by simpa using hunrec⟩

/-- The document of the repository's `test_parse_override_gossip_config`
test: one peer, `try_new_peers = false`, Mainnet, and an unrecognized
`reserved_peer_ips` field. -/
def exampleDocFields : List (String × Json) :=
  [("root_node_ips", .arr [.obj [("Ip", .str "1.2.3.4")]]),
   ("try_new_peers", .bool false),
   ("chain", .str "Mainnet"),
   ("reserved_peer_ips", .arr [.str "5.6.7.8"])]

/-- The configuration `exampleDocFields` deserializes to. -/
def exampleDocConfig : OverrideGossipConfig :=
  { root_node_ips := [⟨⟨1, 2, 3, 4⟩⟩]
    try_new_peers := false
    chain := .Mainnet
    n_gossip_peers := none
    unknown := .obj [("reserved_peer_ips", .arr [.str "5.6.7.8"])] }

/-- C7 witness: the concrete document round-trips, and its unrecognized
`reserved_peer_ips` field survives re-serialization. -/
theorem config_roundtrip_witness :
    OverrideGossipConfig.fromJson (.obj exampleDocFields) =
      some exampleDocConfig ∧
    (OverrideGossipConfig.fromJson exampleDocConfig.toJson =
        some exampleDocConfig ∧
      ∀ kv ∈ exampleDocFields, kv.1 ∉ recognizedKeys →
        kv ∈ exampleDocConfig.toJsonFields) :=
  ⟨rfl, config_roundtrip exampleDocFields exampleDocConfig rfl⟩
